import Mathlib

/-!
Verification of the photo-metadata embedding service of the
Auto-Tag-Photos-with-AI repository.

JavaScript binary strings (the result of `atob`, and the byte content of
JPEG files) are embedded as `List Nat`, one entry per UTF-16 code unit /
byte.  JavaScript text strings are embedded as Lean `String`s, operated on
through their character list `String.data`.  Fallible external operations
(the `piexif` codec, `atob`, `btoa`) are oracles returning `Except`.
-/

namespace Photagg

/-- `toUCS2` of the source, on the code-unit list of a string:
each character contributes its low byte, then its high byte, and the
whole is terminated with two zero bytes. -/
def ucs2Units (l : List Char) : List Nat :=
  l.flatMap (fun ch => [ch.toNat &&& 0xFF, (ch.toNat >>> 8) &&& 0xFF])

/-- Embeds `toUCS2` (imageService): UTF-16LE code units followed by a
two-byte null terminator. -/
def toUCS2 (s : String) : List Nat :=
  ucs2Units s.data ++ [0, 0]

/-- Little-endian 16-bit decoder used to state the round-trip property:
consumes pairs (low byte, high byte). -/
def fromUCS2LE : List Nat → List Nat
  | lo :: hi :: rest => (lo ||| (hi <<< 8)) :: fromUCS2LE rest
  | _ => []

/-- Embeds `toUserComment` (imageService): "ASCII\0\0\0" header followed
by the low byte of each character. -/
def toUserComment (s : String) : List Nat :=
  [65, 83, 67, 73, 73, 0, 0, 0] ++ s.data.map (fun ch => ch.toNat &&& 0xFF)

/-- The apostrophe character, written by code point. -/
def aposChar : Char := Char.ofNat 39

/-- Per-character action of the `escapeXml` regex replacement. -/
def escapeCharL (c : Char) : List Char :=
  if c = '<' then "&lt;".data
  else if c = '>' then "&gt;".data
  else if c = '&' then "&amp;".data
  else if c = aposChar then ("&apos".data ++ [';'])
  else if c = '"' then "&quot;".data
  else [c]

/-- Embeds `escapeXml` (imageService). -/
def escapeXml (s : String) : String :=
  String.mk (s.data.flatMap escapeCharL)

/-- `"http://ns.adobe.com/xap/1.0/\0"` as byte values: the XMP APP1
signature with its null terminator. -/
def xmpHeaderBytes : List Nat :=
  "http://ns.adobe.com/xap/1.0/".data.map Char.toNat ++ [0]

/-- Embeds the segment construction of `insertXmp`: marker `FF E1`, the
two length bytes `(length >> 8) & 0xFF` and `length & 0xFF` with
`length = 2 + payload.length`, then the payload (XMP signature followed by
the XMP XML code units). -/
def xmpSegment (xmpXml : List Nat) : List Nat :=
  let xmpPayload := xmpHeaderBytes ++ xmpXml
  let length := 2 + xmpPayload.length
  [0xFF, 0xE1, (length >>> 8) &&& 0xFF, length &&& 0xFF] ++ xmpPayload

/-- Embeds the insertion-point scan of `insertXmp`: starting after the SOI
marker, while the current byte is `0xFF` and the following marker byte is
`0xE0` or `0xE1`, skip the segment by advancing `2 + len` where `len` is
the big-endian 16-bit length field.  Out-of-range `charCodeAt` yields
`NaN`, which compares unequal to every byte (modelled by the default
`0x100`) and becomes `0` under JavaScript's shift/or coercion (modelled by
the default `0`). -/
def findOffset (s : List Nat) (offset : Nat) : Nat :=
  if offset < s.length then
    if (s.get? offset).getD 0x100 = 0xFF then
      let marker := (s.get? (offset + 1)).getD 0x100
      if marker = 0xE0 ∨ marker = 0xE1 then
        let len := (((s.get? (offset + 2)).getD 0) <<< 8) ||| (s.get? (offset + 3)).getD 0
        findOffset s (offset + 2 + len)
      else offset
    else offset
  else offset
termination_by s.length - offset
decreasing_by simp_wf; omega

/-- Embeds `insertXmp` (imageService): splice the new APP1 segment into
the binary string at the computed offset. -/
def insertXmp (binaryStr : List Nat) (xmpXml : List Nat) : List Nat :=
  let offset := findOffset binaryStr 2
  binaryStr.take offset ++ xmpSegment xmpXml ++ binaryStr.drop offset

/-- The condition under which the scan loop of `insertXmp` skips a
segment at `off`: the byte there is `0xFF` and the next byte is the APP0
marker `0xE0` or the APP1 marker `0xE1`. -/
def isAppSegmentAt (s : List Nat) (off : Nat) : Prop :=
  off < s.length ∧ (s.get? off).getD 0x100 = 0xFF ∧
    ((s.get? (off + 1)).getD 0x100 = 0xE0 ∨ (s.get? (off + 1)).getD 0x100 = 0xE1)

instance (s : List Nat) (off : Nat) : Decidable (isAppSegmentAt s off) :=
  inferInstanceAs (Decidable (_ ∧ _ ∧ (_ ∨ _)))

/-- The big-endian 16-bit length field of the segment starting at `off`. -/
def segLenAt (s : List Nat) (off : Nat) : Nat :=
  (((s.get? (off + 2)).getD 0) <<< 8) ||| (s.get? (off + 3)).getD 0

/-- A minimal JPEG: start-of-image followed directly by end-of-image. -/
def minimalJpeg : List Nat := [0xFF, 0xD8, 0xFF, 0xD9]

/-- A JPEG whose SOI is followed by a single 20-byte APP0 (JFIF) segment:
marker `FF E0`, length field 18, 16 payload bytes, then EOI. -/
def jfifJpeg : List Nat :=
  [0xFF, 0xD8, 0xFF, 0xE0, 0x00, 0x12] ++ List.replicate 16 0x4A ++ [0xFF, 0xD9]

theorem shift_or_eq_mul_add (hi lo : Nat) (h : lo < 256) :
    (hi <<< 8) ||| lo = hi * 256 + lo := by
  rw [Nat.shiftLeft_eq, Nat.mul_comm, ← Nat.mul_add_lt_is_or h]

theorem length_field_eq_mod (n : Nat) :
    ((n >>> 8) &&& 0xFF) * 256 + (n &&& 0xFF) = n % 65536 := by
  have h1 : n >>> 8 = n / 256 := Nat.shiftRight_eq_div_pow n 8
  have h2 : (n / 256) &&& 0xFF = (n / 256) % 256 := Nat.and_pow_two_sub_one_eq_mod (n / 256) 8
  have h3 : n &&& 0xFF = n % 256 := Nat.and_pow_two_sub_one_eq_mod n 8
  rw [h1, h2, h3]
  omega

theorem xmpHeaderBytes_length : xmpHeaderBytes.length = 29 := by decide

theorem findOffset_of_not_app (s : List Nat) (off : Nat) (h : ¬ isAppSegmentAt s off) :
    findOffset s off = off := by
  rw [findOffset]
  by_cases h1 : off < s.length
  · simp only [if_pos h1]
    by_cases h2 : (s.get? off).getD 0x100 = 0xFF
    · have h3 : ¬ ((s.get? (off + 1)).getD 0x100 = 0xE0 ∨
          (s.get? (off + 1)).getD 0x100 = 0xE1) := fun hc => h ⟨h1, h2, hc⟩
      simp only [if_pos h2, if_neg h3]
    · simp only [if_neg h2]
  · simp only [if_neg h1]

theorem findOffset_of_app (s : List Nat) (off : Nat) (h : isAppSegmentAt s off) :
    findOffset s off = findOffset s (off + 2 + segLenAt s off) := by
  obtain ⟨h1, h2, h3⟩ := h
  rw [findOffset]
  simp only [if_pos h1, if_pos h2, if_pos h3]
  rfl

/-- C2: the insertion scan of `insertXmp` starts at offset 2; it stays at 2
when the bytes there do not begin an APP0/APP1 segment (in particular for
the minimal SOI+EOI JPEG), and otherwise skips each consecutive APP0/APP1
segment by `2 + its big-endian length field` before splicing, so a single
20-byte APP0 segment puts the insertion at offset 22. -/
theorem claim_C2 (s : List Nat) (_h0 : s.get? 0 = some 0xFF) (_h1 : s.get? 1 = some 0xD8) :
    (¬ isAppSegmentAt s 2 → findOffset s 2 = 2) ∧
    (∀ off, isAppSegmentAt s off →
        findOffset s off = findOffset s (off + 2 + segLenAt s off)) ∧
    (∀ off, ¬ isAppSegmentAt s off → findOffset s off = off) ∧
    (∀ xmp, insertXmp s xmp =
        s.take (findOffset s 2) ++ xmpSegment xmp ++ s.drop (findOffset s 2)) ∧
    findOffset minimalJpeg 2 = 2 ∧
    findOffset jfifJpeg 2 = 22 := by
  refine ⟨fun h => findOffset_of_not_app s 2 h,
          fun off h => findOffset_of_app s off h,
          fun off h => findOffset_of_not_app s off h,
          fun xmp => rfl, ?_, ?_⟩
  · rw [findOffset]; simp [minimalJpeg]
  · simp [jfifJpeg, findOffset]

theorem claim_C2_witness :
    minimalJpeg.get? 0 = some 0xFF ∧ minimalJpeg.get? 1 = some 0xD8 ∧
    findOffset minimalJpeg 2 = 2 :=
  ⟨rfl, rfl, (claim_C2 minimalJpeg rfl rfl).2.2.2.2.1⟩

theorem payload_length_replicate (n a : Nat) :
    (xmpHeaderBytes ++ List.replicate n a).length = 29 + n := by
  rw [List.length_append, xmpHeaderBytes_length, List.length_replicate]

theorem xmpSegment_field (xmp : List Nat) :
    (xmpSegment xmp).getD 2 0 * 256 + (xmpSegment xmp).getD 3 0
      = (2 + (xmpHeaderBytes ++ xmp).length) % 65536 := by
  simp only [xmpSegment, List.cons_append, List.nil_append, List.getD_cons_succ,
    List.getD_cons_zero]
  exact length_field_eq_mod _

/-- C3 counterexample: for an XMP XML of 65505 code units the payload is
65534 bytes long, the segment length `2 + 65534 = 65536` does not fit in
the 2-byte field, and the written big-endian field decodes to 0, not to
`2 + payload length`. -/
theorem claim_C3_counterexample :
    ¬ ((xmpSegment (List.replicate 65505 97)).getD 2 0 * 256 +
         (xmpSegment (List.replicate 65505 97)).getD 3 0
       = 2 + (xmpHeaderBytes ++ List.replicate 65505 97).length) := by
  have hlen : (xmpHeaderBytes ++ List.replicate 65505 97).length = 65534 := by
    rw [payload_length_replicate]
  rw [xmpSegment_field, hlen]
  norm_num

/-- C3 (amended): the segment built by `insertXmp` is the marker bytes
`FF E1`, a 2-byte big-endian field equal to `(2 + payload length) mod 2^16`
(hence to `2 + payload length` whenever that fits in 16 bits), then the
payload = XMP signature `"http://ns.adobe.com/xap/1.0/\0"` ++ XMP XML; the
returned buffer is exactly `prefix ++ segment ++ suffix` at the computed
offset. -/
theorem claim_C3_amended (s xmp : List Nat) :
    (∃ hi lo, xmpSegment xmp = [0xFF, 0xE1, hi, lo] ++ xmpHeaderBytes ++ xmp ∧
        hi * 256 + lo = (2 + (xmpHeaderBytes ++ xmp).length) % 65536 ∧
        ((2 + (xmpHeaderBytes ++ xmp).length) < 65536 →
          hi * 256 + lo = 2 + (xmpHeaderBytes ++ xmp).length)) ∧
    insertXmp s xmp = s.take (findOffset s 2) ++ xmpSegment xmp ++ s.drop (findOffset s 2) := by
  refine ⟨⟨(2 + (xmpHeaderBytes ++ xmp).length) >>> 8 &&& 0xFF,
           (2 + (xmpHeaderBytes ++ xmp).length) &&& 0xFF, ?_, ?_, ?_⟩, rfl⟩
  · simp [xmpSegment]
  · exact length_field_eq_mod _
  · intro hlt
    rw [length_field_eq_mod]
    exact Nat.mod_eq_of_lt hlt

/-- C10: when the signature-plus-XML payload is 65534 bytes or longer,
`insertXmp` still produces a segment (of length `4 + payload length`), and
the 2-byte length field holds `(2 + payload length) mod 2^16`, which then
differs from `2 + payload length`: the length silently wraps. -/
theorem claim_C10 (xmp : List Nat) (h : 65534 ≤ (xmpHeaderBytes ++ xmp).length) :
    (xmpSegment xmp).length = 4 + (xmpHeaderBytes ++ xmp).length ∧
    (xmpSegment xmp).getD 2 0 * 256 + (xmpSegment xmp).getD 3 0
      = (2 + (xmpHeaderBytes ++ xmp).length) % 65536 ∧
    (2 + (xmpHeaderBytes ++ xmp).length) % 65536 ≠ 2 + (xmpHeaderBytes ++ xmp).length := by
  refine ⟨by simp [xmpSegment]; omega, xmpSegment_field xmp, ?_⟩
  have hlt : (2 + (xmpHeaderBytes ++ xmp).length) % 65536 < 65536 :=
    Nat.mod_lt _ (by norm_num)
  omega

theorem claim_C10_witness :
    65534 ≤ (xmpHeaderBytes ++ List.replicate 65600 65).length ∧
    ((xmpSegment (List.replicate 65600 65)).length
        = 4 + (xmpHeaderBytes ++ List.replicate 65600 65).length ∧
      (xmpSegment (List.replicate 65600 65)).getD 2 0 * 256 +
          (xmpSegment (List.replicate 65600 65)).getD 3 0
        = (2 + (xmpHeaderBytes ++ List.replicate 65600 65).length) % 65536 ∧
      (2 + (xmpHeaderBytes ++ List.replicate 65600 65).length) % 65536
        ≠ 2 + (xmpHeaderBytes ++ List.replicate 65600 65).length) :=
  ⟨by rw [payload_length_replicate]; norm_num, claim_C10 _ (by rw [payload_length_replicate]; norm_num)⟩

theorem ucs2_pair (c : Char) :
    [c.toNat &&& 0xFF, (c.toNat >>> 8) &&& 0xFF] = [c.toNat % 256, c.toNat / 256 % 256] := by
  have h1 : c.toNat &&& 0xFF = c.toNat % 256 := Nat.and_pow_two_sub_one_eq_mod c.toNat 8
  have h2 : c.toNat >>> 8 = c.toNat / 256 := Nat.shiftRight_eq_div_pow c.toNat 8
  have h3 : (c.toNat / 256) &&& 0xFF = c.toNat / 256 % 256 := by
    exact Nat.and_pow_two_sub_one_eq_mod _ 8
  rw [h1, h2, h3]

theorem ucs2Units_length (l : List Char) : (ucs2Units l).length = 2 * l.length := by
  induction l with
  | nil => rfl
  | cons c l ih =>
    simp only [ucs2Units, List.flatMap_cons, List.length_append, List.length_cons,
      List.length_nil] at ih ⊢
    omega

theorem fromUCS2LE_ucs2Units (l : List Char) (h : ∀ c ∈ l, 32 ≤ c.toNat ∧ c.toNat ≤ 126) :
    fromUCS2LE (ucs2Units l) = l.map Char.toNat := by
  induction l with
  | nil => rfl
  | cons c l ih =>
    have hc := h c (List.mem_cons_self c l)
    have hlo : c.toNat &&& 0xFF = c.toNat := by
      have := Nat.and_pow_two_sub_one_eq_mod c.toNat 8
      rw [this]
      exact Nat.mod_eq_of_lt (by omega)
    have hhi : (c.toNat >>> 8) &&& 0xFF = 0 := by
      have h2 : c.toNat >>> 8 = c.toNat / 256 := Nat.shiftRight_eq_div_pow c.toNat 8
      have h3 : c.toNat / 256 = 0 := Nat.div_eq_of_lt (by omega)
      rw [h2, h3]
      rfl
    simp only [ucs2Units, List.flatMap_cons, List.cons_append, List.nil_append,
      fromUCS2LE, List.map_cons]
    rw [hlo, hhi]
    have : c.toNat ||| (0 <<< 8) = c.toNat := by
      rw [Nat.zero_shiftLeft, Nat.or_zero]
    rw [this]
    exact congrArg _ (ih fun x hx => h x (List.mem_cons_of_mem c hx))

/-- C4: for printable-ASCII strings, `toUCS2` yields `2*len+2` bytes ending
in two zero bytes, emits each character's 16-bit code low byte first, and
decoding (strip the 2-byte terminator, read little-endian 16-bit units)
recovers the original character codes. -/
theorem claim_C4 (s : String) (h : ∀ c ∈ s.data, 32 ≤ c.toNat ∧ c.toNat ≤ 126) :
    (toUCS2 s).length = 2 * s.data.length + 2 ∧
    (toUCS2 s).drop (2 * s.data.length) = [0, 0] ∧
    toUCS2 s = s.data.flatMap (fun c => [c.toNat % 256, c.toNat / 256 % 256]) ++ [0, 0] ∧
    fromUCS2LE ((toUCS2 s).take (2 * s.data.length)) = s.data.map Char.toNat := by
  have hunits : (ucs2Units s.data).length = 2 * s.data.length := ucs2Units_length s.data
  have harith : ucs2Units s.data = s.data.flatMap (fun c => [c.toNat % 256, c.toNat / 256 % 256]) := by
    unfold ucs2Units
    congr 1
    funext c
    exact ucs2_pair c
  refine ⟨?_, ?_, ?_, ?_⟩
  · simp only [toUCS2, List.length_append, hunits]
    rfl
  · rw [toUCS2, ← hunits, List.drop_left]
  · rw [toUCS2, harith]
  · rw [toUCS2, ← hunits, List.take_left]
    exact fromUCS2LE_ucs2Units s.data h

theorem claim_C4_witness :
    (∀ c ∈ "Hi".data, 32 ≤ c.toNat ∧ c.toNat ≤ 126) ∧
    ((toUCS2 "Hi").length = 2 * "Hi".data.length + 2 ∧
      (toUCS2 "Hi").drop (2 * "Hi".data.length) = [0, 0] ∧
      toUCS2 "Hi" = "Hi".data.flatMap (fun c => [c.toNat % 256, c.toNat / 256 % 256]) ++ [0, 0] ∧
      fromUCS2LE ((toUCS2 "Hi").take (2 * "Hi".data.length)) = "Hi".data.map Char.toNat) :=
  ⟨by decide, claim_C4 "Hi" (by decide)⟩

/-- The XMP template up to the title interpolation point. -/
def xmpP1 : String := "<x:xmpmeta xmlns:x=\"adobe:ns:meta/\" x:xmptk=\"Adobe XMP Core 5.6-c140 79.160451, 2017/05/06-01:08:21        \">\n <rdf:RDF xmlns:rdf=\"http://www.w3.org/1999/02/22-rdf-syntax-ns#\">\n  <rdf:Description rdf:about=\"\"\n    xmlns:dc=\"http://purl.org/dc/elements/1.1/\"\n    xmlns:photoshop=\"http://ns.adobe.com/photoshop/1.0/\">\n   <dc:title>\n    <rdf:Alt>\n     <rdf:li xml:lang=\"x-default\">"

/-- The XMP template between the title and description interpolation points. -/
def xmpP2 : String := "</rdf:li>\n    </rdf:Alt>\n   </dc:title>\n   <dc:description>\n    <rdf:Alt>\n     <rdf:li xml:lang=\"x-default\">"

/-- The XMP template between the description and keyword interpolation points. -/
def xmpP3 : String := "</rdf:li>\n    </rdf:Alt>\n   </dc:description>\n   <dc:subject>\n    <rdf:Bag>\n     "

/-- The XMP template between the keyword and category interpolation points. -/
def xmpP4 : String := "\n    </rdf:Bag>\n   </dc:subject>\n   "

/-- The XMP template after the category interpolation point. -/
def xmpP5 : String := "\n  </rdf:Description>\n </rdf:RDF>\n</x:xmpmeta>"

def catOpen : String := "<photoshop:Category>"

def catClose : String := "</photoshop:Category>"

/-- One `<rdf:li>` keyword entry of the `dc:subject` bag. -/
def kwItem (k : String) : List Char :=
  "<rdf:li>".data ++ (escapeXml k).data ++ "</rdf:li>".data

/-- `keywords.map(...).join('')` of `createXmpPacket`. -/
def keywordsXmlChars (ks : List String) : List Char :=
  (ks.map kwItem).flatten

/-- The `safeCategory` computation of `createXmpPacket`: JavaScript
truthiness makes both the absent and the empty category collapse to `''`. -/
def safeCategoryOf (category : Option String) : String :=
  match category with
  | some c => if c = "" then "" else escapeXml c
  | none => ""

/-- Embeds `createXmpPacket` (imageService). -/
def createXmpPacket (title description : String) (keywords : List String)
    (category : Option String) : String :=
  let safeTitle := escapeXml title
  let safeDesc := escapeXml description
  let safeCategory := safeCategoryOf category
  let keywordsXml := keywordsXmlChars keywords
  String.mk (xmpP1.data ++ safeTitle.data ++ xmpP2.data ++ safeDesc.data ++ xmpP3.data
    ++ keywordsXml ++ xmpP4.data
    ++ (if safeCategory = "" then [] else catOpen.data ++ safeCategory.data ++ catClose.data)
    ++ xmpP5.data)

/-- The packet template as the spec describes it: the same wrapper, taking
text pieces that have already been escaped. -/
def xmpPacketOfEscaped (safeTitle safeDesc : String) (escapedKeywords : List String)
    (safeCategory : String) : String :=
  String.mk (xmpP1.data ++ safeTitle.data ++ xmpP2.data ++ safeDesc.data ++ xmpP3.data
    ++ (escapedKeywords.map (fun k => "<rdf:li>".data ++ k.data ++ "</rdf:li>".data)).flatten
    ++ xmpP4.data
    ++ (if safeCategory = "" then [] else catOpen.data ++ safeCategory.data ++ catClose.data)
    ++ xmpP5.data)

/-- No occurrence of `<` immediately followed by `p`, as a relation on
adjacent characters. -/
def RnoLtP : Char → Char → Prop := fun a b => ¬(a = '<' ∧ b = 'p')

instance : DecidableRel RnoLtP := fun a b =>
  inferInstanceAs (Decidable ¬(a = '<' ∧ b = 'p'))

/-- A character block that contains no `<p` pair and does not end in `<`,
so that it can be concatenated on the left of anything without creating a
`<p` pair. -/
def GoodPiece (l : List Char) : Prop :=
  List.Chain' RnoLtP l ∧ l.getLast? ≠ some '<'

/-- Executable check for `List.Chain' RnoLtP`. -/
def chainB : List Char → Bool
  | a :: b :: rest => (decide (RnoLtP a b)) && chainB (b :: rest)
  | _ => true

theorem chain'_of_chainB : ∀ l : List Char, chainB l = true → List.Chain' RnoLtP l
  | [] => fun _ => List.chain'_nil
  | [a] => fun _ => List.chain'_singleton a
  | a :: b :: rest => fun h => by
      rw [chainB, Bool.and_eq_true] at h
      have hh := h
      exact List.chain'_cons.mpr
        ⟨of_decide_eq_true hh.1, chain'_of_chainB (b :: rest) hh.2⟩

/-- Executable check for `GoodPiece`. -/
def goodB (l : List Char) : Bool :=
  chainB l && decide (l.getLast? ≠ some '<')

theorem goodPiece_of_goodB {l : List Char} (h : goodB l = true) : GoodPiece l := by
  rw [goodB, Bool.and_eq_true] at h
  exact ⟨chain'_of_chainB l h.1, of_decide_eq_true h.2⟩

theorem goodPiece_append {a b : List Char} (ha : GoodPiece a) (hb : GoodPiece b) :
    GoodPiece (a ++ b) := by
  refine ⟨List.chain'_append.mpr ⟨ha.1, hb.1, ?_⟩, ?_⟩
  · intro x hx y _ hxy
    exact ha.2 (by rw [Option.mem_def.mp hx, hxy.1])
  · by_cases hbe : b = []
    · subst hbe; rw [List.append_nil]; exact ha.2
    · rw [List.getLast?_append_of_ne_nil a hbe]; exact hb.2

theorem chain'_of_no_lt {l : List Char} (h : '<' ∉ l) : List.Chain' RnoLtP l := by
  induction l with
  | nil => exact List.chain'_nil
  | cons c l ih =>
    cases l with
    | nil => exact List.chain'_singleton c
    | cons d l =>
      refine List.chain'_cons.mpr ⟨?_, ih (fun hm => h (List.mem_cons_of_mem c hm))⟩
      intro hcd
      exact h (hcd.1 ▸ List.mem_cons_self c _)

theorem goodPiece_of_no_lt {l : List Char} (h : '<' ∉ l) : GoodPiece l :=
  ⟨chain'_of_no_lt h, fun hl => h (List.mem_of_mem_getLast? hl)⟩

theorem escapeCharL_ne_nil (c : Char) : escapeCharL c ≠ [] := by
  unfold escapeCharL
  split_ifs <;> simp

theorem no_lt_escapeCharL (c : Char) : '<' ∉ escapeCharL c := by
  unfold escapeCharL
  split_ifs with h1 h2 h3 h4 h5 <;> intro hm
  · revert hm; decide
  · revert hm; decide
  · revert hm; decide
  · revert hm; decide
  · revert hm; decide
  · rw [List.mem_singleton] at hm; exact h1 (hm ▸ rfl)

theorem no_lt_escapeXml (s : String) : '<' ∉ (escapeXml s).data := by
  intro hm
  rw [escapeXml] at hm
  obtain ⟨c, _, hc⟩ := List.mem_flatMap.mp hm
  exact no_lt_escapeCharL c hc

theorem goodPiece_escaped (s : String) : GoodPiece (escapeXml s).data :=
  goodPiece_of_no_lt (no_lt_escapeXml s)

theorem goodPiece_kwItem (k : String) : GoodPiece (kwItem k) := by
  exact goodPiece_append
    (goodPiece_append (goodPiece_of_goodB (by decide)) (goodPiece_escaped k))
    (goodPiece_of_goodB (by decide))

theorem goodPiece_keywordsXml (ks : List String) : GoodPiece (keywordsXmlChars ks) := by
  induction ks with
  | nil => exact ⟨List.chain'_nil, by simp [keywordsXmlChars]⟩
  | cons k ks ih =>
    have : keywordsXmlChars (k :: ks) = kwItem k ++ keywordsXmlChars ks := by
      simp [keywordsXmlChars]
    rw [this]
    exact goodPiece_append (goodPiece_kwItem k) ih

theorem escapeXml_eq_empty_iff (s : String) : escapeXml s = "" ↔ s = "" := by
  constructor
  · intro h
    cases s with
    | mk l =>
      cases l with
      | nil => rfl
      | cons c l =>
        exfalso
        rw [escapeXml] at h
        have hd : (c :: l).flatMap escapeCharL = [] := by
          have := congrArg String.data h
          simpa using this
        rw [List.flatMap_eq_nil_iff] at hd
        exact escapeCharL_ne_nil c (hd c (List.mem_cons_self c l))
  · intro h; subst h; rfl

theorem createXmpPacket_data (t d : String) (ks : List String) (c : Option String) :
    (createXmpPacket t d ks c).data
      = xmpP1.data ++ (escapeXml t).data ++ xmpP2.data ++ (escapeXml d).data ++ xmpP3.data
        ++ keywordsXmlChars ks ++ xmpP4.data
        ++ (if safeCategoryOf c = "" then []
            else catOpen.data ++ (safeCategoryOf c).data ++ catClose.data)
        ++ xmpP5.data := rfl

set_option maxRecDepth 8000

theorem goodPiece_nil : GoodPiece ([] : List Char) :=
  ⟨List.chain'_nil, by simp⟩

theorem goodPiece_xmpP1 : GoodPiece xmpP1.data := goodPiece_of_goodB (by decide)

theorem goodPiece_xmpP2 : GoodPiece xmpP2.data := goodPiece_of_goodB (by decide)

theorem goodPiece_xmpP3 : GoodPiece xmpP3.data := goodPiece_of_goodB (by decide)

theorem goodPiece_xmpP4 : GoodPiece xmpP4.data := goodPiece_of_goodB (by decide)

theorem goodPiece_xmpP5 : GoodPiece xmpP5.data := goodPiece_of_goodB (by decide)

/-- C5: the packet built by `createXmpPacket` interpolates only
`escapeXml`-processed versions of the title, the description, each keyword
and the category, and it contains a `photoshop:Category` element exactly
when the category is present and non-empty. -/
theorem claim_C5 (t d : String) (ks : List String) (cat : Option String) :
    createXmpPacket t d ks cat
      = xmpPacketOfEscaped (escapeXml t) (escapeXml d) (ks.map escapeXml) (safeCategoryOf cat) ∧
    (catOpen.data <:+: (createXmpPacket t d ks cat).data ↔ ∃ c, cat = some c ∧ c ≠ "") := by
  constructor
  · have hk : (ks.map escapeXml).map (fun k => "<rdf:li>".data ++ k.data ++ "</rdf:li>".data)
        = ks.map kwItem := by
      rw [List.map_map]; rfl
    unfold createXmpPacket xmpPacketOfEscaped keywordsXmlChars
    rw [hk]
  · constructor
    · intro hinf
      by_contra hno
      have hsc : safeCategoryOf cat = "" := by
        cases cat with
        | none => rfl
        | some c =>
          by_cases hc : c = ""
          · simp [safeCategoryOf, hc]
          · exact absurd ⟨c, rfl, hc⟩ hno
      have hgood : GoodPiece (createXmpPacket t d ks cat).data := by
        rw [createXmpPacket_data, hsc, if_pos rfl]
        exact goodPiece_append (goodPiece_append (goodPiece_append (goodPiece_append
          (goodPiece_append (goodPiece_append (goodPiece_append (goodPiece_append
            goodPiece_xmpP1 (goodPiece_escaped t)) goodPiece_xmpP2) (goodPiece_escaped d))
              goodPiece_xmpP3) (goodPiece_keywordsXml ks)) goodPiece_xmpP4) goodPiece_nil)
                goodPiece_xmpP5
      obtain ⟨u, v, huv⟩ := hinf
      have hch := hgood.1
      rw [← huv, List.append_assoc] at hch
      have h2 := (List.chain'_append.mp hch).2.1
      have hform : catOpen.data ++ v = '<' :: 'p' :: ("hotoshop:Category>".data ++ v) := rfl
      rw [hform] at h2
      exact (List.chain'_cons.mp h2).1 ⟨rfl, rfl⟩
    · rintro ⟨c, hc, hcne⟩
      have hsc : safeCategoryOf cat = escapeXml c := by
        subst hc; simp [safeCategoryOf, hcne]
      have hne : safeCategoryOf cat ≠ "" := by
        rw [hsc]
        exact fun h => hcne ((escapeXml_eq_empty_iff c).mp h)
      rw [createXmpPacket_data, if_neg hne]
      refine ⟨xmpP1.data ++ (escapeXml t).data ++ xmpP2.data ++ (escapeXml d).data
        ++ xmpP3.data ++ keywordsXmlChars ks ++ xmpP4.data,
        (safeCategoryOf cat).data ++ catClose.data ++ xmpP5.data, ?_⟩
      simp [List.append_assoc]

/-- The processing states of `types.ts`. -/
inductive ProcessingStatus
  | IDLE
  | UPLOADING
  | PROCESSING
  | COMPLETED
  | ERROR
deriving DecidableEq

/-- The metadata fields of `PhotoMetadata` (types.ts) used by the export
pipeline. -/
structure PhotoMetadata where
  title : String
  description : String
  keywords : List String
  category : String

/-- The name and declared MIME type of the underlying `File` object. -/
structure PhotoFile where
  name : String
  type : String

/-- The fields of `PhotoItem` (types.ts) used by the export pipeline. -/
structure PhotoItem where
  id : String
  file : PhotoFile
  status : ProcessingStatus
  data : Option PhotoMetadata

/-- JavaScript `String.prototype.split` with a one-character separator:
always returns at least one (possibly empty) piece. -/
def splitOnChar (sep : Char) : List Char → List (List Char)
  | [] => [[]]
  | c :: rest =>
    let r := splitOnChar sep rest
    if c = sep then [] :: r
    else
      match r with
      | h :: t => (c :: h) :: t
      | [] => [[c]]

/-- JavaScript `String.prototype.lastIndexOf` with a one-character needle. -/
def lastIndexOfC (c : Char) : List Char → Option Nat
  | [] => none
  | a :: rest =>
    match lastIndexOfC c rest with
    | some i => some (i + 1)
    | none => if a = c then some 0 else none

/-- The character class of the sanitising regex `/[^a-z0-9]/gi`. -/
def isAsciiAlnum (c : Char) : Bool :=
  ('a' ≤ c && c ≤ 'z') || ('A' ≤ c && c ≤ 'Z') || ('0' ≤ c && c ≤ '9')

/-- `title.replace(/[^a-z0-9]/gi, '_').toLowerCase().substring(0, 50)`. -/
def sanitizeTitle (l : List Char) : List Char :=
  ((l.map (fun c => if isAsciiAlnum c then c else '_')).map Char.toLower).take 50

/-- `photo.file.name.split('.').pop() || 'jpg'` of `constructFileName`. -/
def fileExtChars (nameChars : List Char) : List Char :=
  match (splitOnChar '.' nameChars).getLastD [] with
  | [] => "jpg".data
  | e => e

/-- Embeds `constructFileName` (imageService). -/
def constructFileName (photo : PhotoItem) (keepOriginal : Bool) : String :=
  match photo.data with
  | none => photo.file.name
  | some data =>
    let nameChars := photo.file.name.data
    let extension := fileExtChars nameChars
    let categorySuffix :=
      if data.category = "" then [] else '(' :: data.category.data ++ [')']
    let baseName :=
      if keepOriginal then
        match lastIndexOfC '.' nameChars with
        | some i => nameChars.take i
        | none => nameChars
      else sanitizeTitle data.title.data
    String.mk (baseName ++ categorySuffix ++ '.' :: extension)

def noDotMeta : PhotoMetadata := ⟨"t", "", [], ""⟩

/-- A completed photo whose file name `photo` contains no dot. -/
def noDotPhoto : PhotoItem := ⟨"1", ⟨"photo", "image/jpeg"⟩, ProcessingStatus.COMPLETED, some noDotMeta⟩

/-- C6 counterexample: for the dotless file name `photo` the constructor
re-uses the whole name as the extension, producing `photo.photo` instead of
the `photo.jpg` the claim requires. -/
theorem claim_C6_counterexample :
    constructFileName noDotPhoto true = "photo.photo" ∧
    fileExtChars "photo".data = "photo".data ∧
    constructFileName noDotPhoto true ≠ "photo.jpg" ∧
    fileExtChars "photo".data ≠ "jpg".data := by
  refine ⟨rfl, rfl, by decide, by decide⟩

theorem splitOnChar_of_not_mem {sep : Char} {l : List Char} (h : sep ∉ l) :
    splitOnChar sep l = [l] := by
  induction l with
  | nil => rfl
  | cons c rest ih =>
    have hc : c ≠ sep := fun he => h (he ▸ List.mem_cons_self c rest)
    have hr := ih (fun hm => h (List.mem_cons_of_mem c hm))
    rw [splitOnChar, hr]
    simp [hc]

theorem lastIndexOfC_of_not_mem {c : Char} {l : List Char} (h : c ∉ l) :
    lastIndexOfC c l = none := by
  induction l with
  | nil => rfl
  | cons a rest ih =>
    have ha : a ≠ c := fun he => h (he ▸ List.mem_cons_self a rest)
    have hr := ih (fun hm => h (List.mem_cons_of_mem a hm))
    rw [lastIndexOfC, hr]
    simp [ha]

theorem fileExtChars_nil : fileExtChars [] = "jpg".data := rfl

theorem fileExtChars_no_dot {l : List Char} (h : '.' ∉ l) (hne : l ≠ []) :
    fileExtChars l = l := by
  rw [fileExtChars, splitOnChar_of_not_mem h]
  cases l with
  | nil => exact absurd rfl hne
  | cons a t => rfl

/-- C6 (amended): when the original file name contains no `.`, the
constructor uses the whole original name as the output extension when the
name is non-empty, and `jpg` only when the name is empty. -/
theorem claim_C6_amended (photo : PhotoItem) (data : PhotoMetadata)
    (hd : photo.data = some data) (hnd : '.' ∉ photo.file.name.data) :
    (photo.file.name.data ≠ [] →
      ∃ base, constructFileName photo true = String.mk (base ++ '.' :: photo.file.name.data)) ∧
    (photo.file.name.data = [] →
      ∃ base, constructFileName photo true = String.mk (base ++ '.' :: "jpg".data)) := by
  have hlast := lastIndexOfC_of_not_mem hnd
  constructor
  · intro hne
    refine ⟨photo.file.name.data ++ (if data.category = "" then []
      else '(' :: data.category.data ++ [')']), ?_⟩
    rw [constructFileName, hd]
    simp only [hlast]
    rw [fileExtChars_no_dot hnd hne]
    exact congrArg String.mk (by simp [List.append_assoc])
  · intro hne
    refine ⟨photo.file.name.data ++ (if data.category = "" then []
      else '(' :: data.category.data ++ [')']), ?_⟩
    rw [constructFileName, hd]
    simp only [hlast]
    rw [hne, fileExtChars_nil]
    exact congrArg String.mk (by simp [List.append_assoc])

theorem claim_C6_amended_witness :
    noDotPhoto.data = some noDotMeta ∧ ('.' ∉ noDotPhoto.file.name.data) ∧
    ((noDotPhoto.file.name.data ≠ [] →
      ∃ base, constructFileName noDotPhoto true
        = String.mk (base ++ '.' :: noDotPhoto.file.name.data)) ∧
     (noDotPhoto.file.name.data = [] →
      ∃ base, constructFileName noDotPhoto true = String.mk (base ++ '.' :: "jpg".data))) :=
  ⟨rfl, by decide, claim_C6_amended noDotPhoto noDotMeta rfl (by decide)⟩

/-- The 0th-IFD entries that `embedMetadata` fills in. -/
structure ZerothIFD where
  imageDescription : String
  xpTitle : List Nat
  xpComment : List Nat
  xpKeywords : List Nat
  xpSubject : List Nat
  software : String

/-- The `exifObj` literal passed to `piexif.dump`. -/
structure ExifObj where
  zeroth : ZerothIFD
  userComment : List Nat

/-- `category ? [...keywords, category] : keywords`: JavaScript truthiness
ignores both an absent and an empty category. -/
def finalKeywordsOf (keywords : List String) (category : Option String) : List String :=
  match category with
  | some c => if c = "" then keywords else keywords ++ [c]
  | none => keywords

/-- The `exifObj` construction of `embedMetadata`. -/
def buildExifObj (title description : String) (finalKeywords : List String) : ExifObj :=
  { zeroth :=
      { imageDescription := description
        xpTitle := toUCS2 title
        xpComment := toUCS2 description
        xpKeywords := toUCS2 (String.intercalate ";" finalKeywords)
        xpSubject := toUCS2 description
        software := "Photagg AI" }
    userComment := toUserComment description }

/-- The external `piexif` codec, as an oracle: `dump` serialises an exif
object, `insert` splices the bytes into a base64 data URL.  Either call may
throw. -/
structure Piexif where
  dump : ExifObj → Except String (List Nat)
  insert : List Nat → String → Except String String

/-- `base64Data.includes(',') ? base64Data.split(',')[1] : base64Data`. -/
def cleanBase64Of (b : String) : String :=
  if b.data.contains ',' then String.mk ((splitOnChar ',' b.data).getD 1 []) else b

/-- The body of the `try` block of `embedMetadata`, with the external
fallible operations (`piexif.dump`, `piexif.insert`, `atob`, `btoa`) passed
as oracles. -/
def embedBody (px : Piexif) (atobF : String → Except String (List Nat))
    (btoaF : List Nat → Except String String)
    (base64Data title description : String) (keywords : List String)
    (category : Option String) : Except String String :=
  let cleanBase64 := cleanBase64Of base64Data
  let finalKeywords := finalKeywordsOf keywords category
  do
    let exifObj := buildExifObj title description finalKeywords
    let exifBytes ← px.dump exifObj
    let exifModifiedBase64 ← px.insert exifBytes ("data:image/jpeg;base64," ++ cleanBase64)
    let binaryStr ← atobF (String.mk ((splitOnChar ',' exifModifiedBase64.data).getD 1 []))
    let xmpXml := createXmpPacket title description finalKeywords category
    let finalBinary := insertXmp binaryStr (xmpXml.data.map Char.toNat)
    btoaF finalBinary

/-- Embeds `embedMetadata` (imageService): an absent codec returns the
input unchanged; any exception in the body is caught and the cleaned
original base64 is returned. -/
def embedMetadata (piexif : Option Piexif) (atobF : String → Except String (List Nat))
    (btoaF : List Nat → Except String String)
    (base64Data title description : String) (keywords : List String)
    (category : Option String) : String :=
  match piexif with
  | none => base64Data
  | some px =>
    match embedBody px atobF btoaF base64Data title description keywords category with
    | Except.ok r => r
    | Except.error _ => cleanBase64Of base64Data

/-- C1: if the codec is unavailable `embedMetadata` returns its input
unchanged; if any step of the body throws, the error is caught and the
(cleaned) original base64 is returned — for a plain base64 input without a
data-URL prefix, that is the input itself.  The function is total: it never
propagates an exception. -/
theorem claim_C1 (px : Piexif) (atobF : String → Except String (List Nat))
    (btoaF : List Nat → Except String String)
    (b t d : String) (ks : List String) (cat : Option String) :
    embedMetadata none atobF btoaF b t d ks cat = b ∧
    (∀ e, embedBody px atobF btoaF b t d ks cat = Except.error e →
        embedMetadata (some px) atobF btoaF b t d ks cat = cleanBase64Of b) ∧
    (b.data.contains ',' = false → cleanBase64Of b = b) := by
  refine ⟨rfl, ?_, ?_⟩
  · intro e he
    simp [embedMetadata, he]
  · intro h
    unfold cleanBase64Of
    rw [h]
    rfl

/-- A codec whose serialisation step always throws. -/
def failPiexif : Piexif := ⟨fun _ => Except.error "dump", fun _ _ => Except.error "insert"⟩

def failAtob : String → Except String (List Nat) := fun _ => Except.error "atob"

def failBtoa : List Nat → Except String String := fun _ => Except.error "btoa"

theorem claim_C1_witness :
    embedBody failPiexif failAtob failBtoa "abc" "t" "d" [] none = Except.error "dump" ∧
    embedMetadata (some failPiexif) failAtob failBtoa "abc" "t" "d" [] none = cleanBase64Of "abc" ∧
    ("abc".data.contains ',' = false) ∧ cleanBase64Of "abc" = "abc" :=
  ⟨rfl,
   (claim_C1 failPiexif failAtob failBtoa "abc" "t" "d" [] none).2.1 "dump" rfl,
   rfl,
   (claim_C1 failPiexif failAtob failBtoa "abc" "t" "d" [] none).2.2 rfl⟩

/-- C7: the `XPKeywords` entry of the 0th IFD is `toUCS2` of the
semicolon-joined keyword list, with the category appended as a final extra
keyword exactly when it is present (and non-empty, by JavaScript
truthiness); when the category is absent the joined list is the keywords
alone. -/
theorem claim_C7 (t d : String) (ks : List String) :
    (buildExifObj t d (finalKeywordsOf ks none)).zeroth.xpKeywords
      = toUCS2 (String.intercalate ";" ks) ∧
    (∀ c : String, c ≠ "" →
      (buildExifObj t d (finalKeywordsOf ks (some c))).zeroth.xpKeywords
        = toUCS2 (String.intercalate ";" (ks ++ [c]))) ∧
    finalKeywordsOf ks none = ks ∧
    (∀ c : String, c ≠ "" → finalKeywordsOf ks (some c) = ks ++ [c]) := by
  refine ⟨rfl, ?_, rfl, ?_⟩
  · intro c hc
    simp [buildExifObj, finalKeywordsOf, hc]
  · intro c hc
    simp [finalKeywordsOf, hc]

theorem claim_C7_witness :
    (buildExifObj "t" "d" (finalKeywordsOf ["a", "b"] none)).zeroth.xpKeywords
      = toUCS2 (String.intercalate ";" ["a", "b"]) ∧
    ("Cat" ≠ "") ∧
    (buildExifObj "t" "d" (finalKeywordsOf ["a", "b"] (some "Cat"))).zeroth.xpKeywords
      = toUCS2 (String.intercalate ";" (["a", "b"] ++ ["Cat"])) :=
  ⟨(claim_C7 "t" "d" ["a", "b"]).1, by decide,
   (claim_C7 "t" "d" ["a", "b"]).2.1 "Cat" (by decide)⟩

/-- One entry of the archive built by `createZipWithMetadata`: the pair of
the constructed file name and the base64 content written for the photo,
`none` when the photo has no metadata and is skipped. -/
def zipEntry (px : Option Piexif) (atobF : String → Except String (List Nat))
    (btoaF : List Nat → Except String String) (fileToB64 : PhotoFile → String)
    (keepOriginalFilenames : Bool) (photo : PhotoItem) : Option (String × String) :=
  match photo.data with
  | none => none
  | some data =>
    let base64 := fileToB64 photo.file
    let base64 :=
      if photo.file.type = "image/jpeg" ∨ photo.file.type = "image/jpg" then
        embedMetadata px atobF btoaF base64 data.title data.description data.keywords
          (some data.category)
      else base64
    some (constructFileName photo keepOriginalFilenames, base64)

/-- Embeds `createZipWithMetadata` (imageService) as the list of entries
written into the `photagg_photos` folder. -/
def createZipWithMetadata (px : Option Piexif) (atobF : String → Except String (List Nat))
    (btoaF : List Nat → Except String String) (fileToB64 : PhotoFile → String)
    (photos : List PhotoItem) (keepOriginalFilenames : Bool) : List (String × String) :=
  photos.filterMap (zipEntry px atobF btoaF fileToB64 keepOriginalFilenames)

/-- Embeds `processAndDownloadSingleImage` (imageService) as the name and
base64 content of the download it triggers, `none` when it returns early. -/
def processAndDownloadSingleImage (px : Option Piexif)
    (atobF : String → Except String (List Nat)) (btoaF : List Nat → Except String String)
    (fileToB64 : PhotoFile → String) (photo : PhotoItem)
    (keepOriginalFilenames : Bool) : Option (String × String) :=
  match photo.data with
  | none => none
  | some data =>
    let base64 := fileToB64 photo.file
    let base64 :=
      if photo.file.type = "image/jpeg" ∨ photo.file.type = "image/jpg" then
        embedMetadata px atobF btoaF base64 data.title data.description data.keywords
          (some data.category)
      else base64
    some (constructFileName photo keepOriginalFilenames, base64)

/-- C8: when the declared MIME type is neither `image/jpeg` nor
`image/jpg`, both the batch archive builder and the single-item exporter
skip embedding and write out exactly the bytes read from the file. -/
theorem claim_C8 (px : Option Piexif) (atobF : String → Except String (List Nat))
    (btoaF : List Nat → Except String String) (fileToB64 : PhotoFile → String)
    (photo : PhotoItem) (data : PhotoMetadata) (keep : Bool)
    (hd : photo.data = some data)
    (h1 : photo.file.type ≠ "image/jpeg") (h2 : photo.file.type ≠ "image/jpg") :
    zipEntry px atobF btoaF fileToB64 keep photo
      = some (constructFileName photo keep, fileToB64 photo.file) ∧
    processAndDownloadSingleImage px atobF btoaF fileToB64 photo keep
      = some (constructFileName photo keep, fileToB64 photo.file) ∧
    createZipWithMetadata px atobF btoaF fileToB64 [photo] keep
      = [(constructFileName photo keep, fileToB64 photo.file)] := by
  have hcond : ¬ (photo.file.type = "image/jpeg" ∨ photo.file.type = "image/jpg") :=
    fun hor => hor.elim h1 h2
  refine ⟨?_, ?_, ?_⟩ <;>
    simp [zipEntry, processAndDownloadSingleImage, createZipWithMetadata, hd, hcond]

def pngMeta : PhotoMetadata := ⟨"title", "desc", ["k1"], "Nature"⟩

/-- A completed photo whose declared MIME type is `image/png`. -/
def pngPhoto : PhotoItem := ⟨"2", ⟨"pic.png", "image/png"⟩, ProcessingStatus.COMPLETED, some pngMeta⟩

def constB64 : PhotoFile → String := fun _ => "QUJD"

theorem claim_C8_witness :
    pngPhoto.data = some pngMeta ∧
    pngPhoto.file.type ≠ "image/jpeg" ∧ pngPhoto.file.type ≠ "image/jpg" ∧
    (zipEntry (some failPiexif) failAtob failBtoa constB64 true pngPhoto
        = some (constructFileName pngPhoto true, constB64 pngPhoto.file) ∧
      processAndDownloadSingleImage (some failPiexif) failAtob failBtoa constB64 pngPhoto true
        = some (constructFileName pngPhoto true, constB64 pngPhoto.file) ∧
      createZipWithMetadata (some failPiexif) failAtob failBtoa constB64 [pngPhoto] true
        = [(constructFileName pngPhoto true, constB64 pngPhoto.file)]) :=
  ⟨rfl, by decide, by decide,
   claim_C8 (some failPiexif) failAtob failBtoa constB64 pngPhoto pngMeta true rfl
     (by decide) (by decide)⟩

/-- `replace(/"/g, '""')`: double every double quote. -/
def csvEscapeChars (l : List Char) : List Char :=
  l.flatMap (fun c => if c = '"' then ['"', '"'] else [c])

/-- One data row of `exportToCSV` (App.tsx): five comma-joined fields; the
filename is wrapped in quotes as-is, the other four are quote-doubled
first. -/
def csvRow (keepOriginalFilenames : Bool) (p : PhotoItem) : String :=
  let finalFilename := constructFileName p keepOriginalFilenames
  String.intercalate ","
    [String.mk ('"' :: finalFilename.data ++ ['"']),
     String.mk ('"' :: csvEscapeChars (match p.data with
       | some d => d.title.data | none => []) ++ ['"']),
     String.mk ('"' :: csvEscapeChars (match p.data with
       | some d => d.description.data | none => []) ++ ['"']),
     String.mk ('"' :: csvEscapeChars (match p.data with
       | some d => d.category.data | none => []) ++ ['"']),
     String.mk ('"' :: csvEscapeChars (match p.data with
       | some d => (String.intercalate "; " d.keywords).data | none => []) ++ ['"'])]

/-- Embeds `exportToCSV` (App.tsx): the CSV text built for the completed
photos, `none` when there is nothing to export. -/
def exportToCSV (photos : List PhotoItem) (keepOriginalFilenames : Bool) : Option String :=
  let completedPhotos := photos.filter
    (fun p => decide (p.status = ProcessingStatus.COMPLETED) && p.data.isSome)
  if completedPhotos.length = 0 then none
  else
    some (String.intercalate "\n"
      (String.intercalate "," ["Filename", "Title", "Description", "Category", "Keywords"]
        :: completedPhotos.map (csvRow keepOriginalFilenames)))

/-- A field as the claim describes every field: wrapped in double quotes
with every embedded double quote doubled. -/
def csvEscapedField (s : String) : String :=
  String.mk ('"' :: csvEscapeChars s.data ++ ['"'])

/-- A row as the claim describes it: every field, the filename included,
quote-wrapped and quote-doubled. -/
def claimedCsvRow (keepOriginalFilenames : Bool) (p : PhotoItem) : String :=
  String.intercalate ","
    [csvEscapedField (constructFileName p keepOriginalFilenames),
     csvEscapedField (match p.data with | some d => d.title | none => ""),
     csvEscapedField (match p.data with | some d => d.description | none => ""),
     csvEscapedField (match p.data with | some d => d.category | none => ""),
     csvEscapedField (match p.data with
       | some d => String.intercalate "; " d.keywords | none => "")]

def quoteMeta : PhotoMetadata := ⟨"He said \"hi\"", "", [], ""⟩

/-- A completed photo whose original file name contains a double quote. -/
def quotePhoto : PhotoItem :=
  ⟨"3", ⟨"a\"b.jpg", "image/jpeg"⟩, ProcessingStatus.COMPLETED, some quoteMeta⟩

/-- C9 counterexample: the filename field is wrapped in quotes but its
embedded double quote is NOT doubled, so for the file `a"b.jpg` the emitted
row differs from the fully-escaped row the claim requires (the title field
`He said "hi"` itself IS escaped as the claim says). -/
theorem claim_C9_counterexample :
    csvRow true quotePhoto ≠ claimedCsvRow true quotePhoto ∧
    csvRow true quotePhoto
      = "\"a\"b.jpg\",\"He said \"\"hi\"\"\",\"\",\"\",\"\"" := by
  exact ⟨by decide, rfl⟩

/-- C9 (amended): the Title, Description, Category and Keywords fields are
quote-wrapped with embedded quotes doubled (keywords joined with `"; "`
first), rows are comma-delimited in the header order
Filename,Title,Description,Category,Keywords — but the Filename field is
quote-wrapped without doubling embedded quotes. -/
theorem claim_C9_amended (p : PhotoItem) (d : PhotoMetadata) (keep : Bool)
    (hd : p.data = some d) :
    csvRow keep p = String.intercalate ","
      [String.mk ('"' :: (constructFileName p keep).data ++ ['"']),
       csvEscapedField d.title, csvEscapedField d.description, csvEscapedField d.category,
       csvEscapedField (String.intercalate "; " d.keywords)] ∧
    csvEscapedField "He said \"hi\"" = "\"He said \"\"hi\"\"\"" ∧
    (p.status = ProcessingStatus.COMPLETED →
      exportToCSV [p] keep = some (String.intercalate "\n"
        ["Filename,Title,Description,Category,Keywords", csvRow keep p])) := by
  refine ⟨by simp [csvRow, csvEscapedField, hd], rfl, ?_⟩
  intro hst
  simp [exportToCSV, hst, hd]
  rfl

theorem claim_C9_amended_witness :
    quotePhoto.data = some quoteMeta ∧
    (csvRow false quotePhoto = String.intercalate ","
        [String.mk ('"' :: (constructFileName quotePhoto false).data ++ ['"']),
         csvEscapedField quoteMeta.title, csvEscapedField quoteMeta.description,
         csvEscapedField quoteMeta.category,
         csvEscapedField (String.intercalate "; " quoteMeta.keywords)] ∧
      csvEscapedField "He said \"hi\"" = "\"He said \"\"hi\"\"\"" ∧
      (quotePhoto.status = ProcessingStatus.COMPLETED →
        exportToCSV [quotePhoto] false = some (String.intercalate "\n"
          ["Filename,Title,Description,Category,Keywords", csvRow false quotePhoto]))) :=
  ⟨rfl, claim_C9_amended quotePhoto quoteMeta false rfl⟩

end Photagg
